import Mathlib

/-!
Shallow embedding of the Edmond_API eCFR fetch-aggregate-publish pipeline
(`app/fetcher.py`, `app/main.py`) over exact rational arithmetic, together
with theorems settling the specification claims about it.

Python `round(x, 2)` (round half to even, two decimal places) is modelled by
`round2` below; float sizes are modelled as rationals.  Network effects are
modelled by passing each call's outcome as an explicit argument; the
`datetime.utcnow()` readings of a run are modelled by a `clock` function
giving the value of the i-th call.  Every function below is total: Python
code paths that catch every exception and return a sentinel are modelled by
total functions returning `Option`/an outcome value.
-/

namespace Edmond

/-- Round a rational to the nearest integer, halves to even
(the rounding mode of Python's builtin `round`). -/
def rhe (q : ℚ) : ℤ :=
  if q - ⌊q⌋ < 1/2 then ⌊q⌋
  else if 1/2 < q - ⌊q⌋ then ⌊q⌋ + 1
  else if ⌊q⌋ % 2 = 0 then ⌊q⌋ else ⌊q⌋ + 1

/-- Python's `round(x, 2)`: round to two decimal places, halves to even. -/
def round2 (q : ℚ) : ℚ := (rhe (100 * q) : ℚ) / 100

/-- One successful title-content fetch as consumed by the aggregator:
the dictionary keys `{title_number, title_name, size_mb}` that
`map_titles_to_agencies` reads from each input element. -/
structure TitleContent where
  title_number : Nat
  title_name : String
  size_mb : ℚ
deriving DecidableEq, Repr

/-- Static title→agency lookup table of `map_titles_to_agencies`
(`title_agency_map` in `app/fetcher.py`); yields `(name, code)`.
Title 35 is absent, exactly as in the source. -/
def title_agency_map : Nat → Option (String × String)
  | 1 => some ("General Provisions", "GEN")
  | 2 => some ("Grants and Agreements", "GRANTS")
  | 3 => some ("The President", "POTUS")
  | 4 => some ("Accounts", "GAO")
  | 5 => some ("Administrative Personnel", "OPM")
  | 6 => some ("Domestic Security", "DHS")
  | 7 => some ("Agriculture", "USDA")
  | 8 => some ("Aliens and Nationality", "USCIS")
  | 9 => some ("Animals and Animal Products", "APHIS")
  | 10 => some ("Energy", "DOE")
  | 11 => some ("Federal Elections", "FEC")
  | 12 => some ("Banks and Banking", "FRB")
  | 13 => some ("Business Credit and Assistance", "SBA")
  | 14 => some ("Aeronautics and Space", "FAA")
  | 15 => some ("Commerce and Foreign Trade", "DOC")
  | 16 => some ("Commercial Practices", "FTC")
  | 17 => some ("Commodity and Securities Exchanges", "SEC")
  | 18 => some ("Conservation of Power and Water Resources", "FERC")
  | 19 => some ("Customs Duties", "CBP")
  | 20 => some ("Employees' Benefits", "DOL")
  | 21 => some ("Food and Drugs", "FDA")
  | 22 => some ("Foreign Relations", "STATE")
  | 23 => some ("Highways", "FHWA")
  | 24 => some ("Housing and Urban Development", "HUD")
  | 25 => some ("Indians", "BIA")
  | 26 => some ("Internal Revenue", "IRS")
  | 27 => some ("Alcohol, Tobacco and Firearms", "ATF")
  | 28 => some ("Judicial Administration", "DOJ")
  | 29 => some ("Labor", "DOL")
  | 30 => some ("Mineral Resources", "DOI")
  | 31 => some ("Money and Finance: Treasury", "TREAS")
  | 32 => some ("National Defense", "DOD")
  | 33 => some ("Navigation and Navigable Waters", "USCG")
  | 34 => some ("Education", "ED")
  | 36 => some ("Parks, Forests, and Public Property", "NPS")
  | 37 => some ("Patents, Trademarks, and Copyrights", "USPTO")
  | 38 => some ("Pensions, Bonuses, and Veterans' Relief", "VA")
  | 39 => some ("Postal Service", "USPS")
  | 40 => some ("Protection of Environment", "EPA")
  | 41 => some ("Public Contracts and Property Management", "GSA")
  | 42 => some ("Public Health", "HHS")
  | 43 => some ("Public Lands: Interior", "BLM")
  | 44 => some ("Emergency Management and Assistance", "FEMA")
  | 45 => some ("Public Welfare", "HHS")
  | 46 => some ("Shipping", "MARAD")
  | 47 => some ("Telecommunication", "FCC")
  | 48 => some ("Federal Acquisition Regulations System", "FAR")
  | 49 => some ("Transportation", "DOT")
  | 50 => some ("Wildlife and Fisheries", "FWS")
  | _ => none

/-- Lookup `title_agency_map.get(title_num, {"name": f"Title {n} Agency", "code": f"T{n}"})`:
lookup with the synthesized fallback identity. -/
def agency_info (n : Nat) : String × String :=
  (title_agency_map n).getD ("Title " ++ toString n ++ " Agency", "T" ++ toString n)

/-- In-construction per-agency entry of the `agency_data` insertion-ordered
dict: `{name, code, regulation_size_mb, titles}` (size not yet rounded,
timestamp not yet attached). -/
structure AgencyAccum where
  name : String
  code : String
  regulation_size_mb : ℚ
  titles : List TitleContent
deriving DecidableEq, Repr

/-- Finished agency record as emitted by `map_titles_to_agencies`. -/
structure AgencyRec where
  name : String
  code : String
  regulation_size_mb : ℚ
  titles : List TitleContent
  last_updated : String
deriving DecidableEq, Repr

/-- Upsert of one title content into the insertion-ordered `agency_data`
dict (one iteration of the aggregation loop): the existing entry for the
mapped agency code accumulates `size_mb` and appends the title; a missing
code appends a fresh entry (initial size `0.0` plus the contribution) at
the end.  Keys are unique, so updating the first matching entry is the
dict update. -/
def addTitle : List AgencyAccum → TitleContent → List AgencyAccum
  | [], tc =>
      [{ name := (agency_info tc.title_number).1
         code := (agency_info tc.title_number).2
         regulation_size_mb := 0 + tc.size_mb
         titles := [tc] }]
  | a :: rest, tc =>
      if a.code = (agency_info tc.title_number).2 then
        { a with regulation_size_mb := a.regulation_size_mb + tc.size_mb
                 titles := a.titles ++ [tc] } :: rest
      else
        a :: addTitle rest tc

/-- The aggregation loop of `map_titles_to_agencies` over all inputs. -/
def buildAccums (tcs : List TitleContent) : List AgencyAccum :=
  tcs.foldl addTitle []

/-- The output-construction loop: each dict entry, in insertion order, is
rounded to 2 decimals and stamped with the `datetime.utcnow()` reading of
its own iteration (`clock i` models the i-th `utcnow()` call of the loop). -/
def finalize (clock : Nat → String) : Nat → List AgencyAccum → List AgencyRec
  | _, [] => []
  | i, a :: rest =>
      { name := a.name
        code := a.code
        regulation_size_mb := round2 a.regulation_size_mb
        titles := a.titles
        last_updated := clock i } :: finalize clock (i + 1) rest

/-- Insert into a descending-sorted list, after all entries of greater or
equal key: one step of the stable descending sort modelling Python's
`list.sort(key=..., reverse=True)`. -/
def insDesc (x : AgencyRec) : List AgencyRec → List AgencyRec
  | [] => [x]
  | y :: ys =>
      if y.regulation_size_mb ≤ x.regulation_size_mb then x :: y :: ys
      else y :: insDesc x ys

/-- Stable sort by `regulation_size_mb` descending (Python's stable
`sort(..., reverse=True)` keeps equal keys in their original order). -/
def sortDesc (l : List AgencyRec) : List AgencyRec :=
  l.foldr insDesc []

/-- The record list in first-discovery (dict-insertion) order, before
the final sort. -/
def discovered (clock : Nat → String) (tcs : List TitleContent) : List AgencyRec :=
  finalize clock 0 (buildAccums tcs)

/-- Model of `map_titles_to_agencies` in `app/fetcher.py`: aggregate title sizes by
agency, round, timestamp, and sort by size descending. -/
def map_titles_to_agencies (clock : Nat → String) (tcs : List TitleContent) :
    List AgencyRec :=
  sortDesc (discovered clock tcs)

/-- Exact sum of the `size_mb` entries of a titles list. -/
def titlesSum (ts : List TitleContent) : ℚ :=
  (ts.map TitleContent.size_mb).sum

/-- Exact sum of the agencies' `regulation_size_mb`. -/
def sumSizes (l : List AgencyRec) : ℚ :=
  (l.map AgencyRec.regulation_size_mb).sum

/-- Result dictionary of one successful `fetch_title_content` call:
`{title_number, title_name, size_mb, size_bytes}`. -/
structure TitleSize where
  title_number : Nat
  title_name : String
  size_mb : ℚ
  size_bytes : Nat
deriving DecidableEq, Repr

/-- The three keys of a fetched result that `map_titles_to_agencies`
reads (`title_number`, `title_name`, `size_mb`). -/
def TitleSize.content (ts : TitleSize) : TitleContent :=
  { title_number := ts.title_number
    title_name := ts.title_name
    size_mb := ts.size_mb }

/-- What the parsed JSON body contributes to the result: the value of its
`"title"` key when present (`data.get("title", f"Title {n}")`). -/
structure JsonDoc where
  title : Option String
deriving DecidableEq, Repr

/-- Outcome of the HTTP GET inside `fetch_title_content`: a timeout, any
other transport exception, or a response with a status code and a byte
body (bytes as `List Nat`). -/
inductive HttpOutcome where
  | timeout
  | transportError
  | response (status : Nat) (body : List Nat)
deriving DecidableEq, Repr

/-- Model of `fetch_title_content` in `app/fetcher.py`.  `parse` is the JSON parser:
`none` models a `json.JSONDecodeError` for that body.  Every failure path
(timeout, transport error, non-200 status, unparseable body) returns `none`;
Python's `except` clauses that swallow the exception are modelled by this
function being total.  On success `size_bytes` is the byte length of the
body, measured before parsing. -/
def fetch_title_content (parse : List Nat → Option JsonDoc) (title_number : Nat)
    (r : HttpOutcome) : Option TitleSize :=
  match r with
  | .timeout => none
  | .transportError => none
  | .response status body =>
      if status ≠ 200 then none
      else
        let size_bytes := body.length
        let size_mb : ℚ := (size_bytes : ℚ) / (1024 * 1024)
        match parse body with
        | none => none
        | some data =>
            some { title_number := title_number
                   title_name := data.title.getD ("Title " ++ toString title_number)
                   size_mb := round2 size_mb
                   size_bytes := size_bytes }

/-- The failure conditions of one content fetch: timeout, transport error,
non-success status, or a body the parser rejects. -/
def fetchFails (parse : List Nat → Option JsonDoc) : HttpOutcome → Prop
  | .timeout => True
  | .transportError => True
  | .response status body => status ≠ 200 ∨ parse body = none

/-- One element of the title listing: the `number` key may be absent
(`title.get("number")`), and `0`/absent are both falsy in
`if title_number:`. -/
structure TitleDesc where
  number : Option Nat
  name : String
deriving DecidableEq, Repr

/-- Model of `fetch_all_title_contents` in `app/fetcher.py`, with the per-title
network outcome supplied by `fetchRes`: titles with a present, non-zero
number are fetched, and `None` results (all failure modes of
`fetch_title_content`) are filtered out. -/
def fetch_all_title_contents (fetchRes : Nat → Option TitleSize)
    (titles : List TitleDesc) : List TitleSize :=
  ((titles.filterMap TitleDesc.number).filter (fun n => n != 0)).filterMap fetchRes

/-- The snapshot document written by a successful cycle (`final_data`). -/
structure Snapshot where
  agencies : List AgencyRec
  total_agencies : Nat
  total_size_mb : ℚ
  last_sync : String
  fetch_duration_seconds : ℚ
deriving DecidableEq, Repr

/-- The snapshot store: contents of the canonical location
`data/agency_data.json` and of the temporary sibling
`data/agency_data.tmp.json` (`none` = file absent). -/
structure Store where
  canonical : Option Snapshot
  temp : Option Snapshot
deriving DecidableEq, Repr

/-- How one run of `fetch_and_update_data` ends. -/
inductive CycleOutcome where
  | noTitles
  | noContent
  | published
  | storeFailed
deriving DecidableEq, Repr

/-- Steps 3–4 of `fetch_and_update_data`: aggregate the fetched contents
(the aggregator reads the keys `title_number`, `title_name`, `size_mb` of
each result dict) and build the `final_data` snapshot document. -/
def mkSnapshot (clock : Nat → String) (last_sync : String) (duration : ℚ)
    (title_contents : List TitleSize) : Snapshot :=
  let agencies := map_titles_to_agencies clock (title_contents.map TitleSize.content)
  { agencies := agencies
    total_agencies := agencies.length
    total_size_mb := round2 (sumSizes agencies)
    last_sync := last_sync
    fetch_duration_seconds := duration }

/-- Model of `fetch_and_update_data` in `app/fetcher.py`.  `titles` is the result of
`fetch_title_structure`, `fetchRes` the per-title content-fetch outcome,
`clock` the per-record `utcnow()` readings of the aggregation, `last_sync`
and `duration` the cycle's own timestamp readings.  `writeFails` /
`renameFails` inject an exception into the temp-file write (step 5) or the
atomic rename (step 6); the enclosing `except` block removes whatever is at
the temp path and returns normally, so the model is total and every failure
leaves `canonical` untouched with `temp` cleaned up. -/
def fetch_and_update_data (clock : Nat → String) (last_sync : String) (duration : ℚ)
    (fetchRes : Nat → Option TitleSize) (titles : List TitleDesc)
    (writeFails renameFails : Bool) (store : Store) : Store × CycleOutcome :=
  if titles.isEmpty then (store, .noTitles)
  else
    let title_contents := fetch_all_title_contents fetchRes titles
    if title_contents.isEmpty then (store, .noContent)
    else
      let final_data := mkSnapshot clock last_sync duration title_contents
      if writeFails then
        ({ store with temp := none }, .storeFailed)
      else if renameFails then
        ({ store with temp := none }, .storeFailed)
      else
        ({ canonical := some final_data, temp := none }, .published)

/-- A concrete snapshot S, used as pre-existing store content when
exercising the cycle theorems at concrete inputs. -/
def snapS : Snapshot :=
  { agencies := [], total_agencies := 0, total_size_mb := 0, last_sync := "prev", fetch_duration_seconds := 0 }

/-- A concrete stale snapshot, used as a leftover temp artifact. -/
def snapStale : Snapshot :=
  { agencies := [], total_agencies := 0, total_size_mb := 0, last_sync := "stale", fetch_duration_seconds := 0 }

/-- A one-element title listing. -/
def oneTitle : List TitleDesc := [{ number := some 40, name := "t" }]

/-- A fetch oracle for which every content fetch succeeds with a 10 MB,
3-byte result. -/
def oneFetch : Nat → Option TitleSize :=
  fun k => some { title_number := k, title_name := "T", size_mb := 10, size_bytes := 3 }

/-- The `/api/stats` response document. -/
structure StatsResp where
  total_agencies : Nat
  total_size_mb : ℚ
  largest_agency : Option AgencyRec
  smallest_agency : Option AgencyRec
  average_size_mb : ℚ
  last_sync : String
deriving DecidableEq, Repr

/-- Python's `max(l, key=key)` for non-empty `l`: the first element
attaining the maximum key (later elements replace only on a strictly
greater key). -/
def pyMax (key : AgencyRec → ℚ) : List AgencyRec → Option AgencyRec
  | [] => none
  | x :: xs => some (xs.foldl (fun b y => if key b < key y then y else b) x)

/-- Python's `min(l, key=key)` for non-empty `l`: the first element
attaining the minimum key. -/
def pyMin (key : AgencyRec → ℚ) : List AgencyRec → Option AgencyRec
  | [] => none
  | x :: xs => some (xs.foldl (fun b y => if key y < key b then y else b) x)

/-- Model of `get_statistics` in `app/main.py` (`GET /api/stats`): `data` is what
`load_data()` returned (`none` = no readable snapshot, answered 503). -/
def get_statistics (data : Option Snapshot) : Except Nat StatsResp :=
  match data with
  | none => .error 503
  | some d =>
      .ok { total_agencies := d.agencies.length
            total_size_mb := d.total_size_mb
            largest_agency :=
              if d.agencies.isEmpty then none
              else pyMax (fun a => a.regulation_size_mb) d.agencies
            smallest_agency :=
              if d.agencies.isEmpty then none
              else pyMin (fun a => a.regulation_size_mb) d.agencies
            average_size_mb :=
              if d.agencies.isEmpty then 0
              else round2 (d.total_size_mb / (d.agencies.length : ℚ))
            last_sync := d.last_sync }

/-- A concrete 20 MB agency record (statistics fixtures). -/
def agA : AgencyRec :=
  { name := "Agency A", code := "A", regulation_size_mb := 20, titles := [], last_updated := "u" }

/-- A concrete 10 MB agency record (statistics fixtures). -/
def agB : AgencyRec :=
  { name := "Agency B", code := "B", regulation_size_mb := 10, titles := [], last_updated := "u" }

/-- A concrete two-agency snapshot (statistics fixtures). -/
def snapD0 : Snapshot :=
  { agencies := [agA, agB], total_agencies := 2, total_size_mb := 30, last_sync := "s", fetch_duration_seconds := 0 }

/-- What `/api/stats` answers for `snapD0`. -/
def statsD0 : StatsResp :=
  { total_agencies := 2, total_size_mb := 30, largest_agency := some agA, smallest_agency := some agB, average_size_mb := round2 (30 / 2), last_sync := "s" }

/-! ## Rounding bounds -/

theorem abs_rhe_sub_le (q : ℚ) : |(rhe q : ℚ) - q| ≤ 1/2 := by
  have hfl : (⌊q⌋ : ℚ) ≤ q := Int.floor_le q
  have hfu : q < ⌊q⌋ + 1 := Int.lt_floor_add_one q
  unfold rhe
  split
  · next h =>
    rw [abs_le]
    constructor <;> linarith
  · split
    · next h h' =>
      push_neg at h
      push_cast
      rw [abs_le]
      constructor <;> linarith
    · split
      · next h h' _ =>
        push_neg at h h'
        have : q - ⌊q⌋ = 1/2 := le_antisymm h' h
        rw [abs_le]
        constructor <;> linarith
      · next h h' _ =>
        push_neg at h h'
        have : q - ⌊q⌋ = 1/2 := le_antisymm h' h
        push_cast
        rw [abs_le]
        constructor <;> linarith

theorem abs_round2_sub_le (q : ℚ) : |round2 q - q| ≤ 1/200 := by
  have h := abs_rhe_sub_le (100 * q)
  unfold round2
  have h100 : (0:ℚ) < 100 := by norm_num
  rw [show (rhe (100 * q) : ℚ) / 100 - q = ((rhe (100 * q) : ℚ) - 100 * q) / 100 by ring,
      abs_div, abs_of_pos h100]
  rw [div_le_iff₀ h100]
  linarith

/-! ## The stable descending sort -/

theorem insDesc_perm (x : AgencyRec) (l : List AgencyRec) :
    List.Perm (insDesc x l) (x :: l) := by
  induction l with
  | nil => simp [insDesc]
  | cons y ys ih =>
    by_cases h : y.regulation_size_mb ≤ x.regulation_size_mb
    · simp [insDesc, h]
    · simp only [insDesc, if_neg h]
      exact (ih.cons y).trans (List.Perm.swap x y ys)

theorem sortDesc_perm (l : List AgencyRec) : List.Perm (sortDesc l) l := by
  induction l with
  | nil => simp [sortDesc]
  | cons x xs ih => exact (insDesc_perm x (sortDesc xs)).trans (ih.cons x)

theorem insDesc_sorted (x : AgencyRec) (l : List AgencyRec)
    (hl : l.Pairwise (fun a b => b.regulation_size_mb ≤ a.regulation_size_mb)) :
    (insDesc x l).Pairwise (fun a b => b.regulation_size_mb ≤ a.regulation_size_mb) := by
  induction l with
  | nil => simp [insDesc]
  | cons y ys ih =>
    rcases List.pairwise_cons.mp hl with ⟨hy, hys⟩
    by_cases h : y.regulation_size_mb ≤ x.regulation_size_mb
    · simp only [insDesc, if_pos h]
      refine List.pairwise_cons.mpr ⟨?_, hl⟩
      intro z hz
      rcases List.mem_cons.mp hz with rfl | hz
      · exact h
      · exact le_trans (hy z hz) h
    · simp only [insDesc, if_neg h]
      refine List.pairwise_cons.mpr ⟨?_, ih hys⟩
      intro z hz
      rcases List.mem_cons.mp ((insDesc_perm x ys).mem_iff.mp hz) with rfl | hz
      · exact le_of_lt (lt_of_not_ge h)
      · exact hy z hz

theorem sortDesc_sorted (l : List AgencyRec) :
    (sortDesc l).Pairwise (fun a b => b.regulation_size_mb ≤ a.regulation_size_mb) := by
  induction l with
  | nil => simp [sortDesc]
  | cons x xs ih => exact insDesc_sorted x (sortDesc xs) ih

theorem insDesc_filter_size (q : ℚ) (x : AgencyRec) (l : List AgencyRec) :
    (insDesc x l).filter (fun a => decide (a.regulation_size_mb = q)) =
      if x.regulation_size_mb = q then
        x :: l.filter (fun a => decide (a.regulation_size_mb = q))
      else l.filter (fun a => decide (a.regulation_size_mb = q)) := by
  induction l with
  | nil =>
    by_cases h : x.regulation_size_mb = q <;> simp [insDesc, h]
  | cons y ys ih =>
    by_cases hyx : y.regulation_size_mb ≤ x.regulation_size_mb
    · rw [show insDesc x (y :: ys) = x :: y :: ys by simp [insDesc, hyx]]
      by_cases hx : x.regulation_size_mb = q <;>
        simp [List.filter_cons, hx]
    · rw [show insDesc x (y :: ys) = y :: insDesc x ys by simp [insDesc, hyx]]
      have hlt : x.regulation_size_mb < y.regulation_size_mb := lt_of_not_ge hyx
      by_cases hx : x.regulation_size_mb = q
      · have hyq : ¬(y.regulation_size_mb = q) := by
          intro e
          rw [e, ← hx] at hlt
          exact lt_irrefl _ hlt
        simp [List.filter_cons, hx, hyq, ih]
      · simp [List.filter_cons, ih, hx]

theorem sortDesc_filter_size (q : ℚ) (l : List AgencyRec) :
    (sortDesc l).filter (fun a => decide (a.regulation_size_mb = q)) =
      l.filter (fun a => decide (a.regulation_size_mb = q)) := by
  induction l with
  | nil => rfl
  | cons x xs ih =>
    show (insDesc x (sortDesc xs)).filter _ = _
    rw [insDesc_filter_size, List.filter_cons]
    by_cases hx : x.regulation_size_mb = q <;> simp [hx, ih]

/-! ## The aggregation loop -/

theorem addTitle_codes (acc : List AgencyAccum) (tc : TitleContent) :
    (addTitle acc tc).map AgencyAccum.code =
      if (agency_info tc.title_number).2 ∈ acc.map AgencyAccum.code then
        acc.map AgencyAccum.code
      else acc.map AgencyAccum.code ++ [(agency_info tc.title_number).2] := by
  induction acc with
  | nil => simp [addTitle]
  | cons a rest ih =>
    by_cases h : a.code = (agency_info tc.title_number).2
    · simp [addTitle, h]
    · have h' : ¬((agency_info tc.title_number).2 = a.code) := fun e => h e.symm
      rw [show addTitle (a :: rest) tc = a :: addTitle rest tc by simp [addTitle, h]]
      by_cases hm : (agency_info tc.title_number).2 ∈ rest.map AgencyAccum.code <;>
        simp [ih, h', hm]

theorem foldl_addTitle_codes_nodup (tcs : List TitleContent) (acc : List AgencyAccum)
    (h : (acc.map AgencyAccum.code).Nodup) :
    ((tcs.foldl addTitle acc).map AgencyAccum.code).Nodup := by
  induction tcs generalizing acc with
  | nil => exact h
  | cons tc rest ih =>
    refine ih (addTitle acc tc) ?_
    rw [addTitle_codes]
    split
    · exact h
    · next hm => simp [List.nodup_append, h, hm]

theorem buildAccums_codes_nodup (tcs : List TitleContent) :
    ((buildAccums tcs).map AgencyAccum.code).Nodup :=
  foldl_addTitle_codes_nodup tcs [] (by simp)

theorem addTitle_sizes (acc : List AgencyAccum) (tc : TitleContent)
    (h : ∀ a ∈ acc, a.regulation_size_mb = titlesSum a.titles) :
    ∀ a ∈ addTitle acc tc, a.regulation_size_mb = titlesSum a.titles := by
  induction acc with
  | nil =>
    intro a ha
    simp only [addTitle, List.mem_singleton] at ha
    subst ha
    simp [titlesSum]
  | cons b rest ih =>
    intro a ha
    by_cases hb : b.code = (agency_info tc.title_number).2
    · rw [show addTitle (b :: rest) tc =
          { b with regulation_size_mb := b.regulation_size_mb + tc.size_mb
                   titles := b.titles ++ [tc] } :: rest by simp [addTitle, hb]] at ha
      rcases List.mem_cons.mp ha with rfl | ha
      · have hbsum := h b (List.mem_cons_self b rest)
        simp only [titlesSum, List.map_append, List.sum_append] at hbsum ⊢
        simp [hbsum]
      · exact h a (List.mem_cons_of_mem b ha)
    · rw [show addTitle (b :: rest) tc = b :: addTitle rest tc by simp [addTitle, hb]] at ha
      rcases List.mem_cons.mp ha with rfl | ha
      · exact h a (List.mem_cons_self a rest)
      · exact ih (fun c hc => h c (List.mem_cons_of_mem b hc)) a ha

theorem buildAccums_sizes (tcs : List TitleContent) :
    ∀ a ∈ buildAccums tcs, a.regulation_size_mb = titlesSum a.titles := by
  have aux : ∀ (l : List TitleContent) (acc : List AgencyAccum),
      (∀ a ∈ acc, a.regulation_size_mb = titlesSum a.titles) →
      ∀ a ∈ l.foldl addTitle acc, a.regulation_size_mb = titlesSum a.titles := by
    intro l
    induction l with
    | nil => intro acc h; exact h
    | cons tc rest ih =>
      intro acc h
      exact ih (addTitle acc tc) (addTitle_sizes acc tc h)
  exact aux tcs [] (by simp)

theorem addTitle_join_perm (acc : List AgencyAccum) (tc : TitleContent) :
    List.Perm ((addTitle acc tc).map AgencyAccum.titles).flatten
      ((acc.map AgencyAccum.titles).flatten ++ [tc]) := by
  induction acc with
  | nil => simp [addTitle]
  | cons b rest ih =>
    by_cases hb : b.code = (agency_info tc.title_number).2
    · rw [show addTitle (b :: rest) tc =
          { b with regulation_size_mb := b.regulation_size_mb + tc.size_mb
                   titles := b.titles ++ [tc] } :: rest by simp [addTitle, hb]]
      simp only [List.map_cons, List.flatten_cons]
      have hswap :
          List.Perm ([tc] ++ (rest.map AgencyAccum.titles).flatten)
            ((rest.map AgencyAccum.titles).flatten ++ [tc]) :=
        List.perm_append_comm
      have := hswap.append_left b.titles
      simpa [List.append_assoc] using this
    · rw [show addTitle (b :: rest) tc = b :: addTitle rest tc by simp [addTitle, hb]]
      simp only [List.map_cons, List.flatten_cons]
      have := ih.append_left b.titles
      simpa [List.append_assoc] using this

theorem buildAccums_join_perm (tcs : List TitleContent) :
    List.Perm ((buildAccums tcs).map AgencyAccum.titles).flatten tcs := by
  have aux : ∀ (l : List TitleContent) (acc : List AgencyAccum),
      List.Perm ((l.foldl addTitle acc).map AgencyAccum.titles).flatten
        ((acc.map AgencyAccum.titles).flatten ++ l) := by
    intro l
    induction l with
    | nil => intro acc; simp
    | cons tc rest ih =>
      intro acc
      refine (ih (addTitle acc tc)).trans ?_
      have := (addTitle_join_perm acc tc).append_right rest
      simpa [List.append_assoc] using this
  simpa using aux tcs []

theorem addTitle_titles_code (acc : List AgencyAccum) (tc : TitleContent)
    (h : ∀ a ∈ acc, ∀ t ∈ a.titles, (agency_info t.title_number).2 = a.code) :
    ∀ a ∈ addTitle acc tc, ∀ t ∈ a.titles, (agency_info t.title_number).2 = a.code := by
  induction acc with
  | nil =>
    intro a ha t ht
    simp only [addTitle, List.mem_singleton] at ha
    subst ha
    simp only [List.mem_singleton] at ht
    subst ht
    rfl
  | cons b rest ih =>
    intro a ha t ht
    by_cases hb : b.code = (agency_info tc.title_number).2
    · rw [show addTitle (b :: rest) tc =
          { b with regulation_size_mb := b.regulation_size_mb + tc.size_mb
                   titles := b.titles ++ [tc] } :: rest by simp [addTitle, hb]] at ha
      rcases List.mem_cons.mp ha with rfl | ha
      · simp only [List.mem_append, List.mem_singleton] at ht
        rcases ht with ht | rfl
        · exact h b (List.mem_cons_self b rest) t ht
        · exact hb.symm
      · exact h a (List.mem_cons_of_mem b ha) t ht
    · rw [show addTitle (b :: rest) tc = b :: addTitle rest tc by simp [addTitle, hb]] at ha
      rcases List.mem_cons.mp ha with rfl | ha
      · exact h a (List.mem_cons_self a rest) t ht
      · exact ih (fun c hc => h c (List.mem_cons_of_mem b hc)) a ha t ht

theorem buildAccums_titles_code (tcs : List TitleContent) :
    ∀ a ∈ buildAccums tcs, ∀ t ∈ a.titles,
      (agency_info t.title_number).2 = a.code := by
  have aux : ∀ (l : List TitleContent) (acc : List AgencyAccum),
      (∀ a ∈ acc, ∀ t ∈ a.titles, (agency_info t.title_number).2 = a.code) →
      ∀ a ∈ l.foldl addTitle acc, ∀ t ∈ a.titles,
        (agency_info t.title_number).2 = a.code := by
    intro l
    induction l with
    | nil => intro acc h; exact h
    | cons tc rest ih =>
      intro acc h
      exact ih (addTitle acc tc) (addTitle_titles_code acc tc h)
  exact aux tcs [] (by simp)

/-! ## The finalize loop -/

theorem finalize_map_code (clock : Nat → String) (i : Nat) (accs : List AgencyAccum) :
    (finalize clock i accs).map AgencyRec.code = accs.map AgencyAccum.code := by
  induction accs generalizing i with
  | nil => rfl
  | cons a rest ih => simp [finalize, ih]

theorem finalize_map_titles (clock : Nat → String) (i : Nat) (accs : List AgencyAccum) :
    (finalize clock i accs).map AgencyRec.titles = accs.map AgencyAccum.titles := by
  induction accs generalizing i with
  | nil => rfl
  | cons a rest ih => simp [finalize, ih]

theorem mem_finalize (clock : Nat → String) (i : Nat) (accs : List AgencyAccum)
    (a : AgencyRec) (ha : a ∈ finalize clock i accs) :
    ∃ b ∈ accs, a.code = b.code ∧
      a.regulation_size_mb = round2 b.regulation_size_mb ∧ a.titles = b.titles := by
  induction accs generalizing i with
  | nil => simp [finalize] at ha
  | cons b rest ih =>
    simp only [finalize, List.mem_cons] at ha
    rcases ha with rfl | ha
    · exact ⟨b, List.mem_cons_self b rest, rfl, rfl, rfl⟩
    · rcases ih (i + 1) ha with ⟨c, hc, h1, h2, h3⟩
      exact ⟨c, List.mem_cons_of_mem b hc, h1, h2, h3⟩

theorem finalize_const_clock (clock : Nat → String) (h : ∀ j, clock j = clock 0)
    (i : Nat) (accs : List AgencyAccum) :
    ∀ a ∈ finalize clock i accs, a.last_updated = clock 0 := by
  induction accs generalizing i with
  | nil => simp [finalize]
  | cons b rest ih =>
    intro a ha
    simp only [finalize, List.mem_cons] at ha
    rcases ha with rfl | ha
    · exact h i
    · exact ih (i + 1) a ha

/-! ## Views of the whole aggregator -/

theorem mta_perm_discovered (clock : Nat → String) (tcs : List TitleContent) :
    List.Perm (map_titles_to_agencies clock tcs) (discovered clock tcs) :=
  sortDesc_perm (discovered clock tcs)

theorem mta_codes_nodup (clock : Nat → String) (tcs : List TitleContent) :
    ((map_titles_to_agencies clock tcs).map AgencyRec.code).Nodup := by
  have hperm := (mta_perm_discovered clock tcs).map AgencyRec.code
  refine hperm.nodup_iff.mpr ?_
  rw [discovered, finalize_map_code]
  exact buildAccums_codes_nodup tcs

theorem mta_mem_spec (clock : Nat → String) (tcs : List TitleContent)
    (a : AgencyRec) (ha : a ∈ map_titles_to_agencies clock tcs) :
    ∃ b ∈ buildAccums tcs, a.code = b.code ∧
      a.regulation_size_mb = round2 b.regulation_size_mb ∧ a.titles = b.titles :=
  mem_finalize clock 0 (buildAccums tcs) a
    ((mta_perm_discovered clock tcs).mem_iff.mp ha)

theorem mta_size_near_titlesSum (clock : Nat → String) (tcs : List TitleContent)
    (a : AgencyRec) (ha : a ∈ map_titles_to_agencies clock tcs) :
    |a.regulation_size_mb - titlesSum a.titles| ≤ 1/100 := by
  rcases mta_mem_spec clock tcs a ha with ⟨b, hb, _, hsize, htitles⟩
  rw [hsize, htitles, ← buildAccums_sizes tcs b hb]
  exact le_trans (abs_round2_sub_le b.regulation_size_mb) (by norm_num)

theorem mta_titles_code (clock : Nat → String) (tcs : List TitleContent)
    (a : AgencyRec) (ha : a ∈ map_titles_to_agencies clock tcs) :
    ∀ t ∈ a.titles, (agency_info t.title_number).2 = a.code := by
  rcases mta_mem_spec clock tcs a ha with ⟨b, hb, hcode, _, htitles⟩
  intro t ht
  rw [htitles] at ht
  rw [hcode]
  exact buildAccums_titles_code tcs b hb t ht

theorem mta_flatten_perm (clock : Nat → String) (tcs : List TitleContent) :
    List.Perm ((map_titles_to_agencies clock tcs).map AgencyRec.titles).flatten tcs := by
  have h1 : List.Perm ((map_titles_to_agencies clock tcs).map AgencyRec.titles)
      ((discovered clock tcs).map AgencyRec.titles) :=
    (mta_perm_discovered clock tcs).map AgencyRec.titles
  refine h1.flatten.trans ?_
  simp only [discovered, finalize_map_titles]
  exact buildAccums_join_perm tcs

/-! ## Claim theorems -/

/-- C5: for every input sequence, the aggregator's output satisfies the
agency-list well-formedness invariant: agency codes are pairwise distinct;
each record's `regulation_size_mb` equals the sum of its titles' `size_mb`
within ±0.01; and the output is sorted by `regulation_size_mb` descending —
it is a permutation of the first-discovered (insertion) order in which the
records of any given size value appear exactly in discovery order, i.e.
ties preserve insertion order. -/
theorem aggregator_wellformed (clock : Nat → String) (tcs : List TitleContent) :
    ((map_titles_to_agencies clock tcs).map AgencyRec.code).Nodup ∧
    (∀ a ∈ map_titles_to_agencies clock tcs,
      |a.regulation_size_mb - titlesSum a.titles| ≤ 1/100) ∧
    (map_titles_to_agencies clock tcs).Pairwise
      (fun a b => b.regulation_size_mb ≤ a.regulation_size_mb) ∧
    List.Perm (map_titles_to_agencies clock tcs) (discovered clock tcs) ∧
    (∀ q : ℚ,
      (map_titles_to_agencies clock tcs).filter
          (fun a => decide (a.regulation_size_mb = q)) =
        (discovered clock tcs).filter (fun a => decide (a.regulation_size_mb = q))) :=
  ⟨mta_codes_nodup clock tcs,
   fun a ha => mta_size_near_titlesSum clock tcs a ha,
   sortDesc_sorted (discovered clock tcs),
   mta_perm_discovered clock tcs,
   fun q => sortDesc_filter_size q (discovered clock tcs)⟩

/-- C4: every title number missing from the static table is mapped to the
synthesized fallback identity (concretely, `{title_number := 99, size_mb := 5}`
yields the record `T99` / `"Title 99 Agency"` with size `5`), and no input
element is ever dropped: the concatenation of all output records' titles
lists is a permutation of the input, so each input element appears as an
entry of exactly one output record's titles list. -/
theorem fallback_identity_and_no_drop (clock : Nat → String) (tcs : List TitleContent) :
    (∀ n, title_agency_map n = none →
      agency_info n = ("Title " ++ toString n ++ " Agency", "T" ++ toString n)) ∧
    List.Perm ((map_titles_to_agencies clock tcs).map AgencyRec.titles).flatten tcs ∧
    map_titles_to_agencies clock [⟨99, "X", 5⟩] =
      [{ name := "Title 99 Agency", code := "T99", regulation_size_mb := 5,
         titles := [⟨99, "X", 5⟩], last_updated := clock 0 }] := by
  refine ⟨?_, mta_flatten_perm clock tcs, ?_⟩
  · intro n hn
    simp [agency_info, hn]
  · norm_num [map_titles_to_agencies, discovered, buildAccums, addTitle,
      agency_info, title_agency_map, finalize, sortDesc, insDesc, round2, rhe]
    decide

/-- C3: the input `[{title_number := 40, size_mb := 20}, {title_number := 40,
size_mb := 25}]` aggregates to exactly one record, with code `"EPA"`,
`regulation_size_mb = 45` and a titles list of length 2; and in general two
input entries with the same title number always land in the same output
record (they are summed into one agency record, never deduplicated into
separate records). -/
theorem duplicate_titles_summed (clock : Nat → String) :
    map_titles_to_agencies clock
        [⟨40, "Environment", 20⟩, ⟨40, "Environment Part 2", 25⟩] =
      [{ name := "Protection of Environment", code := "EPA",
         regulation_size_mb := 45,
         titles := [⟨40, "Environment", 20⟩, ⟨40, "Environment Part 2", 25⟩],
         last_updated := clock 0 }] ∧
    (∀ (clock' : Nat → String) (tcs : List TitleContent) (a b : AgencyRec),
      a ∈ map_titles_to_agencies clock' tcs →
      b ∈ map_titles_to_agencies clock' tcs →
      (∃ ta ∈ a.titles, ∃ tb ∈ b.titles, ta.title_number = tb.title_number) →
      a = b) := by
  constructor
  · norm_num [map_titles_to_agencies, discovered, buildAccums, addTitle,
      agency_info, title_agency_map, finalize, sortDesc, insDesc, round2, rhe]
  · rintro clock' tcs a b ha hb ⟨ta, hta, tb, htb, hnum⟩
    have hca := mta_titles_code clock' tcs a ha ta hta
    have hcb := mta_titles_code clock' tcs b hb tb htb
    have hcode : a.code = b.code := by rw [← hca, ← hcb, hnum]
    exact List.inj_on_of_nodup_map (mta_codes_nodup clock' tcs) ha hb hcode

/-- C8 counterexample: the code reads `datetime.utcnow()` afresh for every
record of the output-construction loop, so with clock readings "0", "1", …
the two agency records of this concrete run carry different `last_updated`
values — refuting that all records of one run share one timestamp. -/
theorem last_updated_not_shared :
    ∃ a ∈ map_titles_to_agencies (fun n => toString n) [⟨1, "a", 1⟩, ⟨2, "b", 1⟩],
      ∃ b ∈ map_titles_to_agencies (fun n => toString n) [⟨1, "a", 1⟩, ⟨2, "b", 1⟩],
        a.last_updated ≠ b.last_updated := by
  have h : map_titles_to_agencies (fun n => toString n) [⟨1, "a", 1⟩, ⟨2, "b", 1⟩] =
      [{ name := "General Provisions", code := "GEN", regulation_size_mb := 1,
         titles := [⟨1, "a", 1⟩], last_updated := "0" },
       { name := "Grants and Agreements", code := "GRANTS", regulation_size_mb := 1,
         titles := [⟨2, "b", 1⟩], last_updated := "1" }] := by
    norm_num [map_titles_to_agencies, discovered, buildAccums, addTitle,
      agency_info, title_agency_map, finalize, sortDesc, insDesc, round2, rhe]
    decide
  rw [h]
  refine ⟨_, List.mem_cons_self _ _, _, List.mem_cons_of_mem _ (List.mem_cons_self _ _), ?_⟩
  decide

/-- C8 amended: each record's `last_updated` is the `datetime.utcnow()`
reading of its own iteration of the output loop, so all records of one
aggregation run carry the same value exactly when the clock readings of
that run coincide (e.g. when the loop runs within one clock tick). -/
theorem last_updated_uniform_of_constant_clock (clock : Nat → String)
    (tcs : List TitleContent) (h : ∀ j, clock j = clock 0) :
    ∀ a ∈ map_titles_to_agencies clock tcs, a.last_updated = clock 0 := by
  intro a ha
  exact finalize_const_clock clock h 0 (buildAccums tcs) a
    ((mta_perm_discovered clock tcs).mem_iff.mp ha)

/-- C8 witness: the amended theorem applied to a constant clock, the
concrete input `[{title_number := 40, size_mb := 10}]` and the one record
that run produces. -/
theorem last_updated_uniform_witness :
    ({ name := "Protection of Environment", code := "EPA", regulation_size_mb := 10,
       titles := [⟨40, "E", 10⟩], last_updated := "t" } : AgencyRec).last_updated = "t" :=
  last_updated_uniform_of_constant_clock (fun _ => "t") [⟨40, "E", 10⟩]
    (fun _ => rfl) _
    (by norm_num [map_titles_to_agencies, discovered, buildAccums, addTitle,
          agency_info, title_agency_map, finalize, sortDesc, insDesc, round2, rhe])

/-- C7: `fetch_title_content` never propagates an exception (the model is a
total function); any timeout, transport error, non-success status, or body
that fails to parse yields `none`; and a successful result can only come
from a 200 response, carrying `size_bytes` equal to the exact byte length
of the response body (the length is measured on the raw body, independent
of the parse). -/
theorem fetch_title_content_spec (parse : List Nat → Option JsonDoc)
    (n : Nat) (r : HttpOutcome) :
    (fetchFails parse r → fetch_title_content parse n r = none) ∧
    (∀ ts, fetch_title_content parse n r = some ts →
      ∃ status body, r = .response status body ∧ status = 200 ∧
        ts.size_bytes = body.length) := by
  constructor
  · intro hf
    cases r with
    | timeout => rfl
    | transportError => rfl
    | response status body =>
      rcases hf with h200 | hparse
      · simp [fetch_title_content, h200]
      · by_cases h : status = 200
        · subst h
          simp [fetch_title_content, hparse]
        · simp [fetch_title_content, h]
  · intro ts hts
    cases r with
    | timeout => simp [fetch_title_content] at hts
    | transportError => simp [fetch_title_content] at hts
    | response status body =>
      by_cases h : status = 200
      · subst h
        refine ⟨200, body, rfl, rfl, ?_⟩
        simp only [fetch_title_content, ne_eq, not_true_eq_false, if_false,
          reduceIte] at hts
        cases hp : parse body with
        | none => rw [hp] at hts; simp at hts
        | some data =>
          rw [hp] at hts
          simp only [Option.some_inj] at hts
          rw [← hts]
      · simp [fetch_title_content, h] at hts

/-- C1: if the title listing comes back empty, or no content fetch
succeeds, the cycle aborts (`noTitles` resp. `noContent`) without producing
a snapshot and without any mutation of the snapshot store: whatever the
store held before the call it holds, exactly, after it. -/
theorem cycle_total_failure_abort (clock : Nat → String) (last_sync : String)
    (duration : ℚ) (fetchRes : Nat → Option TitleSize) (titles : List TitleDesc)
    (writeFails renameFails : Bool) (store : Store)
    (h : titles = [] ∨ fetch_all_title_contents fetchRes titles = []) :
    (fetch_and_update_data clock last_sync duration fetchRes titles
        writeFails renameFails store).1 = store ∧
    ((fetch_and_update_data clock last_sync duration fetchRes titles
        writeFails renameFails store).2 = CycleOutcome.noTitles ∨
      (fetch_and_update_data clock last_sync duration fetchRes titles
        writeFails renameFails store).2 = CycleOutcome.noContent) ∧
    (titles = [] →
      (fetch_and_update_data clock last_sync duration fetchRes titles
        writeFails renameFails store).2 = CycleOutcome.noTitles) := by
  by_cases ht : titles.isEmpty
  · have ht' : titles = [] := List.isEmpty_iff.mp ht
    simp [fetch_and_update_data, ht]
  · have ht' : ¬(titles = []) := fun e => ht (by simp [e])
    rcases h with h | h
    · exact absurd h ht'
    · simp [fetch_and_update_data, ht, h, ht']

/-- C1 witness: an empty title listing leaves a concrete pre-existing store
(holding snapshot S) exactly unchanged and reports `noTitles`. -/
theorem cycle_total_failure_abort_witness :
    (fetch_and_update_data (fun j => toString j) "s" 0 (fun _ => none) []
        false false { canonical := some snapS, temp := none }).1 =
      { canonical := some snapS, temp := none } ∧
    (fetch_and_update_data (fun j => toString j) "s" 0 (fun _ => none) []
        false false { canonical := some snapS, temp := none }).2 =
      CycleOutcome.noTitles := by
  have h := cycle_total_failure_abort (fun j => toString j) "s" 0 (fun _ => none) []
    false false { canonical := some snapS, temp := none } (Or.inl rfl)
  exact ⟨h.1, h.2.2 rfl⟩

/-- C2: when the cycle reaches the publish step and the temp-file write or
the rename raises, the `except` handler removes the temporary artifact, the
canonical snapshot location is untouched, and the function returns normally
(reports `storeFailed` instead of propagating the exception). -/
theorem store_failure_cleanup (clock : Nat → String) (last_sync : String)
    (duration : ℚ) (fetchRes : Nat → Option TitleSize) (titles : List TitleDesc)
    (writeFails renameFails : Bool) (store : Store)
    (h1 : titles.isEmpty = false)
    (h2 : (fetch_all_title_contents fetchRes titles).isEmpty = false)
    (h3 : writeFails = true ∨ renameFails = true) :
    (fetch_and_update_data clock last_sync duration fetchRes titles
        writeFails renameFails store).1.temp = none ∧
    (fetch_and_update_data clock last_sync duration fetchRes titles
        writeFails renameFails store).1.canonical = store.canonical ∧
    (fetch_and_update_data clock last_sync duration fetchRes titles
        writeFails renameFails store).2 = CycleOutcome.storeFailed := by
  rcases h3 with h3 | h3
  · simp [fetch_and_update_data, h1, h2, h3]
  · by_cases hw : writeFails <;>
      simp [fetch_and_update_data, h1, h2, h3, hw]

/-- C2 witness: a concrete run whose temp-file write fails, against a store
holding a previous snapshot and a leftover temp artifact: the temp artifact
ends up absent and the canonical snapshot is exactly the previous one. -/
theorem store_failure_cleanup_witness :
    (fetch_and_update_data (fun j => toString j) "s" 0 oneFetch oneTitle true false
        { canonical := some snapS, temp := some snapStale }).1.temp = none ∧
    (fetch_and_update_data (fun j => toString j) "s" 0 oneFetch oneTitle true false
        { canonical := some snapS, temp := some snapStale }).1.canonical =
      some snapS := by
  have h := store_failure_cleanup (fun j => toString j) "s" 0 oneFetch oneTitle
    true false { canonical := some snapS, temp := some snapStale }
    rfl (by simp [fetch_all_title_contents, oneTitle, oneFetch]) (Or.inl rfl)
  exact ⟨h.1, h.2.1⟩

/-- C6: every snapshot published by a successful fetch cycle has
`total_agencies` equal to the length of its agencies list and
`total_size_mb` equal to the sum of the agencies' `regulation_size_mb`
(rounded to 2 decimals) within tolerance 0.01. -/
theorem snapshot_totals_conserved (clock : Nat → String) (last_sync : String)
    (duration : ℚ) (fetchRes : Nat → Option TitleSize) (titles : List TitleDesc)
    (writeFails renameFails : Bool) (store : Store)
    (h : (fetch_and_update_data clock last_sync duration fetchRes titles
        writeFails renameFails store).2 = CycleOutcome.published) :
    ∃ snap, (fetch_and_update_data clock last_sync duration fetchRes titles
        writeFails renameFails store).1.canonical = some snap ∧
      snap.total_agencies = snap.agencies.length ∧
      snap.total_size_mb = round2 (sumSizes snap.agencies) ∧
      |snap.total_size_mb - sumSizes snap.agencies| ≤ 1/100 := by
  by_cases ht : titles.isEmpty
  · simp [fetch_and_update_data, ht] at h
  · by_cases hc : (fetch_all_title_contents fetchRes titles).isEmpty
    · simp [fetch_and_update_data, ht, hc] at h
    · by_cases hw : writeFails
      · simp [fetch_and_update_data, ht, hc, hw] at h
      · by_cases hr : renameFails
        · simp [fetch_and_update_data, ht, hc, hw, hr] at h
        · refine ⟨mkSnapshot clock last_sync duration
            (fetch_all_title_contents fetchRes titles), ?_, rfl, rfl, ?_⟩
          · simp [fetch_and_update_data, ht, hc, hw, hr]
          · exact le_trans (abs_round2_sub_le _) (by norm_num)

/-- C6 witness: a concrete successful cycle (one title, one fetched
content) publishes a snapshot satisfying both totals properties. -/
theorem snapshot_totals_conserved_witness :
    ∃ snap, (fetch_and_update_data (fun j => toString j) "s" 0 oneFetch oneTitle
        false false { canonical := none, temp := none }).1.canonical = some snap ∧
      snap.total_agencies = snap.agencies.length ∧
      snap.total_size_mb = round2 (sumSizes snap.agencies) ∧
      |snap.total_size_mb - sumSizes snap.agencies| ≤ 1/100 :=
  snapshot_totals_conserved (fun j => toString j) "s" 0 oneFetch oneTitle
    false false { canonical := none, temp := none }
    (by simp [fetch_and_update_data, fetch_all_title_contents, oneTitle, oneFetch])

/-! ## The statistics accessor -/

theorem foldMax_spec (key : AgencyRec → ℚ) (xs : List AgencyRec) :
    ∀ b : AgencyRec,
      (xs.foldl (fun c y => if key c < key y then y else c) b = b ∨
        xs.foldl (fun c y => if key c < key y then y else c) b ∈ xs) ∧
      key b ≤ key (xs.foldl (fun c y => if key c < key y then y else c) b) ∧
      ∀ y ∈ xs, key y ≤ key (xs.foldl (fun c y => if key c < key y then y else c) b) := by
  induction xs with
  | nil => intro b; exact ⟨Or.inl rfl, le_refl _, by simp⟩
  | cons x xs ih =>
    intro b
    simp only [List.foldl_cons]
    obtain ⟨hmem, hble, hall⟩ := ih (if key b < key x then x else b)
    have hb' : key b ≤ key (if key b < key x then x else b) := by
      by_cases h : key b < key x
      · rw [if_pos h]; exact le_of_lt h
      · rw [if_neg h]
    have hx' : key x ≤ key (if key b < key x then x else b) := by
      by_cases h : key b < key x
      · rw [if_pos h]
      · rw [if_neg h]; exact le_of_not_lt h
    refine ⟨?_, le_trans hb' hble, ?_⟩
    · rcases hmem with he | hm
      · rw [he]
        by_cases h : key b < key x
        · rw [if_pos h]
          exact Or.inr (List.mem_cons_self x xs)
        · rw [if_neg h]
          exact Or.inl rfl
      · exact Or.inr (List.mem_cons_of_mem x hm)
    · intro y hy
      rcases List.mem_cons.mp hy with rfl | hy
      · exact le_trans hx' hble
      · exact hall y hy

theorem foldMin_spec (key : AgencyRec → ℚ) (xs : List AgencyRec) :
    ∀ b : AgencyRec,
      (xs.foldl (fun c y => if key y < key c then y else c) b = b ∨
        xs.foldl (fun c y => if key y < key c then y else c) b ∈ xs) ∧
      key (xs.foldl (fun c y => if key y < key c then y else c) b) ≤ key b ∧
      ∀ y ∈ xs, key (xs.foldl (fun c y => if key y < key c then y else c) b) ≤ key y := by
  induction xs with
  | nil => intro b; exact ⟨Or.inl rfl, le_refl _, by simp⟩
  | cons x xs ih =>
    intro b
    simp only [List.foldl_cons]
    obtain ⟨hmem, hble, hall⟩ := ih (if key x < key b then x else b)
    have hb' : key (if key x < key b then x else b) ≤ key b := by
      by_cases h : key x < key b
      · rw [if_pos h]; exact le_of_lt h
      · rw [if_neg h]
    have hx' : key (if key x < key b then x else b) ≤ key x := by
      by_cases h : key x < key b
      · rw [if_pos h]
      · rw [if_neg h]; exact le_of_not_lt h
    refine ⟨?_, le_trans hble hb', ?_⟩
    · rcases hmem with he | hm
      · rw [he]
        by_cases h : key x < key b
        · rw [if_pos h]
          exact Or.inr (List.mem_cons_self x xs)
        · rw [if_neg h]
          exact Or.inl rfl
      · exact Or.inr (List.mem_cons_of_mem x hm)
    · intro y hy
      rcases List.mem_cons.mp hy with rfl | hy
      · exact le_trans hble hx'
      · exact hall y hy

theorem pyMax_spec (key : AgencyRec → ℚ) (l : List AgencyRec) (x : AgencyRec)
    (h : pyMax key l = some x) : x ∈ l ∧ ∀ y ∈ l, key y ≤ key x := by
  cases l with
  | nil => simp [pyMax] at h
  | cons a as =>
    simp only [pyMax, Option.some_inj] at h
    obtain ⟨hmem, hble, hall⟩ := foldMax_spec key as a
    subst h
    constructor
    · rcases hmem with he | hm
      · rw [he]; exact List.mem_cons_self a as
      · exact List.mem_cons_of_mem a hm
    · intro y hy
      rcases List.mem_cons.mp hy with rfl | hy
      · exact hble
      · exact hall y hy

theorem pyMin_spec (key : AgencyRec → ℚ) (l : List AgencyRec) (x : AgencyRec)
    (h : pyMin key l = some x) : x ∈ l ∧ ∀ y ∈ l, key x ≤ key y := by
  cases l with
  | nil => simp [pyMin] at h
  | cons a as =>
    simp only [pyMin, Option.some_inj] at h
    obtain ⟨hmem, hble, hall⟩ := foldMin_spec key as a
    subst h
    constructor
    · rcases hmem with he | hm
      · rw [he]; exact List.mem_cons_self a as
      · exact List.mem_cons_of_mem a hm
    · intro y hy
      rcases List.mem_cons.mp hy with rfl | hy
      · exact hble
      · exact hall y hy

/-- C10: the `/api/stats` accessor: on an empty agencies list both extreme
records are null and the average is 0 (the emptiness guard avoids any
division by zero; the accessor is a total function); on a non-empty list
`largest_agency` and `smallest_agency` are records of the list attaining
the maximum resp. minimum `regulation_size_mb`, and `average_size_mb`
equals `total_size_mb` divided by the number of agencies, rounded to two
decimal places.  `total_agencies` is always the length of the list. -/
theorem get_statistics_spec (d : Snapshot) (st : StatsResp)
    (hok : get_statistics (some d) = Except.ok st) :
    st.total_agencies = d.agencies.length ∧
    (d.agencies = [] → st.largest_agency = none ∧ st.smallest_agency = none ∧
      st.average_size_mb = 0) ∧
    (d.agencies ≠ [] →
      (∃ la, st.largest_agency = some la ∧ la ∈ d.agencies ∧
        ∀ b ∈ d.agencies, b.regulation_size_mb ≤ la.regulation_size_mb) ∧
      (∃ sa, st.smallest_agency = some sa ∧ sa ∈ d.agencies ∧
        ∀ b ∈ d.agencies, sa.regulation_size_mb ≤ b.regulation_size_mb) ∧
      st.average_size_mb = round2 (d.total_size_mb / (d.agencies.length : ℚ))) := by
  simp only [get_statistics, Except.ok.injEq] at hok
  subst hok
  rcases hd : d.agencies with _ | ⟨a, as⟩
  · refine ⟨by simp, fun _ => by simp, fun hne => absurd rfl hne⟩
  · refine ⟨by simp, fun he => absurd he (by simp), fun hne => ?_⟩
    refine ⟨?_, ?_, by simp⟩
    · obtain ⟨hmem, hmax⟩ :=
        pyMax_spec (fun r => r.regulation_size_mb) (a :: as) _ rfl
      refine ⟨_, ?_, hmem, hmax⟩
      simp [pyMax]
    · obtain ⟨hmem, hmin⟩ :=
        pyMin_spec (fun r => r.regulation_size_mb) (a :: as) _ rfl
      refine ⟨_, ?_, hmem, hmin⟩
      simp [pyMin]

/-- C10 witness: the statistics theorem applied to the concrete two-agency
snapshot `snapD0`, whose stats response is `statsD0`. -/
theorem get_statistics_spec_witness :
    statsD0.total_agencies = snapD0.agencies.length ∧
    (snapD0.agencies = [] → statsD0.largest_agency = none ∧
      statsD0.smallest_agency = none ∧ statsD0.average_size_mb = 0) ∧
    (snapD0.agencies ≠ [] →
      (∃ la, statsD0.largest_agency = some la ∧ la ∈ snapD0.agencies ∧
        ∀ b ∈ snapD0.agencies, b.regulation_size_mb ≤ la.regulation_size_mb) ∧
      (∃ sa, statsD0.smallest_agency = some sa ∧ sa ∈ snapD0.agencies ∧
        ∀ b ∈ snapD0.agencies, sa.regulation_size_mb ≤ b.regulation_size_mb) ∧
      statsD0.average_size_mb =
        round2 (snapD0.total_size_mb / (snapD0.agencies.length : ℚ))) :=
  get_statistics_spec snapD0 statsD0
    (by norm_num [get_statistics, pyMax, pyMin, snapD0, statsD0, agA, agB])

end Edmond
